import Mathlib

/-!
Verification of the realtime voice client of `apps/web/app/voice/page.tsx`
(the web client of the local voice-assistant stack).

The client is embedded shallowly: JavaScript numbers that reach the PCM
encoder are IEEE doubles holding `Float32Array` samples, and every operation
the encoder performs on them (clamp, scale by `0x8000` or `0x7fff`, truncate)
is exact on such values, so samples are modelled as exact rationals with an
explicit `nan` constructor for the one non-numeric input the code tolerates.
Times from `performance.now()` are rationals of milliseconds.  The mutable
refs of the React component become fields of an explicit `ClientState`, the
`ws.onmessage` / `worklet.port.onmessage` callbacks and the `stop` function
become pure state-transition functions that also return the list of messages
sent on the websocket.
-/

namespace DeadReflection

/-- A captured audio sample: an exact rational value, or IEEE NaN. -/
inductive Sample
  | nan
  | val (q : ℚ)
deriving DecidableEq

/-- Truncation toward zero, the rounding `DataView.setInt16` applies to a
fractional number (ECMAScript `ToInt16` first runs `truncate`). -/
def ratTrunc (q : ℚ) : ℤ :=
  if q < 0 then ⌈q⌉ else ⌊q⌋

/-- The wrap into a signed 16-bit integer performed by `ToInt16`:
reduce modulo 2^16 into [-32768, 32767]. -/
def toInt16 (t : ℤ) : ℤ :=
  (t + 32768) % 65536 - 32768

/-- `Math.max(-1, Math.min(1, x))` from `pcm16leBufferFromFloat32`. -/
def jsClamp (q : ℚ) : ℚ :=
  max (-1) (min 1 q)

/-- The signed 16-bit integer stored for one sample by
`pcm16leBufferFromFloat32`: clamp to [-1, 1], scale negatives by `0x8000`
and non-negatives by `0x7fff`, then convert with `setInt16`.  A NaN sample
propagates through clamp and scale and `ToInt16` maps it to 0. -/
def encodeSample : Sample → ℤ
  | .nan => 0
  | .val q =>
      let s := jsClamp q
      toInt16 (ratTrunc (if s < 0 then s * 32768 else s * 32767))

/-- Little-endian byte pair of a signed 16-bit value, as written by
`view.setInt16 (i * 2) v true`. -/
def int16ToBytesLE (v : ℤ) : List ℕ :=
  [(v % 65536).toNat % 256, (v % 65536).toNat / 256]

/-- `pcm16leBufferFromFloat32` (page.tsx): the outgoing audio buffer, two
little-endian bytes per input sample, in input order. -/
def pcm16leBufferFromFloat32 : List Sample → List ℕ
  | [] => []
  | s :: rest => int16ToBytesLE (encodeSample s) ++ pcm16leBufferFromFloat32 rest

/-- Modelled from the spec: the repository only contains the encoder (the
`decode` half of the §4.1 Frame Codec contract lives in the backend, which is
not under version control here).  Per the spec the codec is 16-bit signed
little-endian PCM, so decoding reads a little-endian byte pair back into a
signed 16-bit integer. -/
def int16FromBytesLE (lo hi : ℕ) : ℤ :=
  if 32768 ≤ lo + 256 * hi then (lo : ℤ) + 256 * hi - 65536 else (lo : ℤ) + 256 * hi

/-- Modelled from the spec: `decode` is the inverse of `encode` in the §4.1
codec contract; it undoes the asymmetric scaling of `encode` (negative
values scaled by 32768, non-negative by 32767). -/
def decodeSample (v : ℤ) : ℚ :=
  if v < 0 then (v : ℚ) / 32768 else (v : ℚ) / 32767

/-- Modelled from the spec: `decode` of a little-endian 16-bit PCM buffer,
sample by sample. -/
def decodePcm16le : List ℕ → List ℚ
  | lo :: hi :: rest => decodeSample (int16FromBytesLE lo hi) :: decodePcm16le rest
  | _ => []

lemma jsClamp_le_one (q : ℚ) : jsClamp q ≤ 1 := by
  unfold jsClamp
  exact max_le (by norm_num) (min_le_left 1 q)

lemma neg_one_le_jsClamp (q : ℚ) : -1 ≤ jsClamp q := le_max_left _ _

/-- The scaled-and-truncated sample always lies in the signed 16-bit range:
clamping first makes the positive rail scale to at most 32767. -/
lemma ratTrunc_scaled_bounds (q : ℚ) :
    -32768 ≤ ratTrunc (if jsClamp q < 0 then jsClamp q * 32768 else jsClamp q * 32767) ∧
      ratTrunc (if jsClamp q < 0 then jsClamp q * 32768 else jsClamp q * 32767) ≤ 32767 := by
  have h1 : -1 ≤ jsClamp q := neg_one_le_jsClamp q
  have h2 : jsClamp q ≤ 1 := jsClamp_le_one q
  by_cases hneg : jsClamp q < 0
  · rw [if_pos hneg]
    have hx0 : jsClamp q * 32768 < 0 := by nlinarith
    have hx1 : (-32768 : ℚ) ≤ jsClamp q * 32768 := by nlinarith
    unfold ratTrunc
    rw [if_pos hx0]
    constructor
    · have := Int.le_ceil (jsClamp q * 32768)
      have hcast : ((-32768 : ℤ) : ℚ) ≤ (⌈jsClamp q * 32768⌉ : ℚ) := by
        push_cast
        linarith
      exact_mod_cast hcast
    · have h0 : ⌈jsClamp q * 32768⌉ ≤ 0 := Int.ceil_le.mpr (by push_cast; linarith)
      omega
  · rw [if_neg hneg]
    push_neg at hneg
    have hx0 : (0 : ℚ) ≤ jsClamp q * 32767 := by nlinarith
    have hx1 : jsClamp q * 32767 ≤ 32767 := by nlinarith
    unfold ratTrunc
    rw [if_neg (by linarith : ¬jsClamp q * 32767 < 0)]
    constructor
    · have h0 : (0 : ℤ) ≤ ⌊jsClamp q * 32767⌋ := Int.le_floor.mpr (by push_cast; linarith)
      omega
    · have := Int.floor_le (jsClamp q * 32767)
      have hcast : (⌊jsClamp q * 32767⌋ : ℚ) ≤ ((32767 : ℤ) : ℚ) := by
        push_cast
        linarith
      exact_mod_cast hcast

/-- In range, `ToInt16` does not wrap. -/
lemma toInt16_of_bounds (t : ℤ) (h1 : -32768 ≤ t) (h2 : t ≤ 32767) : toInt16 t = t := by
  unfold toInt16
  omega

/-- The encoder never wraps: the stored integer is exactly the truncated
scaled clamp of the sample. -/
lemma encodeSample_val (q : ℚ) :
    encodeSample (.val q) =
      ratTrunc (if jsClamp q < 0 then jsClamp q * 32768 else jsClamp q * 32767) := by
  have hb := ratTrunc_scaled_bounds q
  unfold encodeSample
  exact toInt16_of_bounds _ hb.1 hb.2

lemma encodeSample_bounds (s : Sample) :
    -32768 ≤ encodeSample s ∧ encodeSample s ≤ 32767 := by
  cases s with
  | nan => decide
  | val q => rw [encodeSample_val]; exact ratTrunc_scaled_bounds q

/-- Reading back the little-endian byte pair of an in-range 16-bit value
recovers the value. -/
lemma int16FromBytesLE_toBytes (v : ℤ) (h1 : -32768 ≤ v) (h2 : v ≤ 32767) :
    int16FromBytesLE ((v % 65536).toNat % 256) ((v % 65536).toNat / 256) = v := by
  unfold int16FromBytesLE
  split_ifs <;> omega

/-- One encoded sample decodes back to within one quantization step
(1/32767) of the original, for originals already in [-1, 1]. -/
lemma decode_encode_sample (q : ℚ) (h1 : -1 ≤ q) (h2 : q ≤ 1) :
    |decodeSample (encodeSample (.val q)) - q| ≤ 1 / 32767 := by
  have hc : jsClamp q = q := by
    unfold jsClamp
    rw [min_eq_right h2, max_eq_right h1]
  rw [encodeSample_val, hc]
  by_cases hq : q < 0
  · rw [if_pos hq]
    have hx0 : q * 32768 < 0 := by nlinarith
    unfold ratTrunc
    rw [if_pos hx0]
    have hle : q * 32768 ≤ (⌈q * 32768⌉ : ℚ) := Int.le_ceil _
    have hlt : (⌈q * 32768⌉ : ℚ) < q * 32768 + 1 := Int.ceil_lt_add_one _
    by_cases hz : ⌈q * 32768⌉ < 0
    · unfold decodeSample
      rw [if_pos hz]
      rw [abs_le]
      constructor <;> linarith
    · have h0 : ⌈q * 32768⌉ ≤ 0 := Int.ceil_le.mpr (by push_cast; linarith)
      have hzero : ⌈q * 32768⌉ = 0 := by omega
      rw [hzero]
      unfold decodeSample
      norm_num
      rw [hzero] at hlt
      rw [abs_le]
      push_cast at hlt
      constructor <;> linarith
  · push_neg at hq
    rw [if_neg (by linarith : ¬q < 0)]
    have hx0 : (0 : ℚ) ≤ q * 32767 := by nlinarith
    unfold ratTrunc
    rw [if_neg (by linarith : ¬q * 32767 < 0)]
    have hfl : (⌊q * 32767⌋ : ℚ) ≤ q * 32767 := Int.floor_le _
    have hlt : q * 32767 < (⌊q * 32767⌋ : ℚ) + 1 := Int.lt_floor_add_one _
    have h0 : (0 : ℤ) ≤ ⌊q * 32767⌋ := Int.le_floor.mpr (by push_cast; linarith)
    unfold decodeSample
    rw [if_neg (by omega : ¬⌊q * 32767⌋ < 0)]
    rw [abs_le]
    constructor <;> linarith

/-- Decoding peels encoded samples off the buffer one at a time. -/
lemma decodePcm16le_encode_cons (s : Sample) (rest : List Sample) :
    decodePcm16le (pcm16leBufferFromFloat32 (s :: rest)) =
      decodeSample (encodeSample s) :: decodePcm16le (pcm16leBufferFromFloat32 rest) := by
  have hb := encodeSample_bounds s
  show decodePcm16le (int16ToBytesLE (encodeSample s) ++ pcm16leBufferFromFloat32 rest) = _
  unfold int16ToBytesLE
  show decodeSample (int16FromBytesLE _ _) :: _ = _
  rw [int16FromBytesLE_toBytes _ hb.1 hb.2]
  simp

lemma pcm16leBufferFromFloat32_length (input : List Sample) :
    (pcm16leBufferFromFloat32 input).length = 2 * input.length := by
  induction input with
  | nil => rfl
  | cons s rest ih =>
      simp only [pcm16leBufferFromFloat32, int16ToBytesLE, List.length_append,
        List.length_cons, ih]
      simp
      omega

lemma pcm16leBufferFromFloat32_getElem (input : List Sample) (i : ℕ) :
    (pcm16leBufferFromFloat32 input)[2 * i]? =
        input[i]?.map (fun s => (encodeSample s % 65536).toNat % 256)
      ∧ (pcm16leBufferFromFloat32 input)[2 * i + 1]? =
        input[i]?.map (fun s => (encodeSample s % 65536).toNat / 256) := by
  induction input generalizing i with
  | nil => simp [pcm16leBufferFromFloat32]
  | cons s rest ih =>
      cases i with
      | zero => simp [pcm16leBufferFromFloat32, int16ToBytesLE]
      | succ j =>
          have hb : pcm16leBufferFromFloat32 (s :: rest) =
              (encodeSample s % 65536).toNat % 256 ::
                (encodeSample s % 65536).toNat / 256 ::
                  pcm16leBufferFromFloat32 rest := rfl
          have h1 : 2 * (j + 1) = 2 * j + 1 + 1 := by ring
          have h2 : 2 * (j + 1) + 1 = 2 * j + 1 + 1 + 1 := by ring
          constructor
          · rw [hb, h1, List.getElem?_cons_succ, List.getElem?_cons_succ,
              List.getElem?_cons_succ, (ih j).1]
          · rw [hb, h2, List.getElem?_cons_succ, List.getElem?_cons_succ,
              List.getElem?_cons_succ, (ih j).2]

/-- Claim C6: `pcm16leBufferFromFloat32` produces exactly 2 bytes per sample
in little-endian signed 16-bit layout; each sample is clamped to [-1, 1] and
scaled by 32768 when negative and 32767 otherwise, so the stored value always
lies in [-32768, 32767] with no wrap at the positive rail, and a NaN sample
is stored as zero. -/
theorem pcm16le_encode_layout_bounds_nan (input : List Sample) :
    (pcm16leBufferFromFloat32 input).length = 2 * input.length
    ∧ (∀ i : ℕ,
        (pcm16leBufferFromFloat32 input)[2 * i]? =
          input[i]?.map (fun s => (encodeSample s % 65536).toNat % 256)
        ∧ (pcm16leBufferFromFloat32 input)[2 * i + 1]? =
          input[i]?.map (fun s => (encodeSample s % 65536).toNat / 256))
    ∧ (∀ q : ℚ, encodeSample (.val q) =
        ratTrunc (if jsClamp q < 0 then jsClamp q * 32768 else jsClamp q * 32767))
    ∧ (∀ s : Sample, -32768 ≤ encodeSample s ∧ encodeSample s ≤ 32767)
    ∧ encodeSample .nan = 0 :=
  ⟨pcm16leBufferFromFloat32_length input,
   fun i => pcm16leBufferFromFloat32_getElem input i,
   encodeSample_val,
   encodeSample_bounds,
   rfl⟩

/-- Claim C7: decoding the encoded little-endian PCM16 buffer reconstructs
every sample of a sequence in [-1, 1] to within one quantization step
(1/32767). -/
theorem pcm16le_roundtrip (input : List ℚ)
    (hin : ∀ q ∈ input, -1 ≤ q ∧ q ≤ 1) :
    (decodePcm16le (pcm16leBufferFromFloat32 (input.map Sample.val))).length =
        input.length
    ∧ ∀ i : ℕ,
        |(decodePcm16le (pcm16leBufferFromFloat32 (input.map Sample.val))).getD i 0 -
            input.getD i 0| ≤ 1 / 32767 := by
  induction input with
  | nil =>
      refine ⟨rfl, fun i => ?_⟩
      simp [decodePcm16le, pcm16leBufferFromFloat32]
  | cons q rest ih =>
      have hq := hin q (List.mem_cons_self q rest)
      have hrest : ∀ x ∈ rest, -1 ≤ x ∧ x ≤ 1 :=
        fun x hx => hin x (List.mem_cons_of_mem q hx)
      have hih := ih hrest
      rw [List.map_cons, decodePcm16le_encode_cons]
      refine ⟨by simpa using hih.1, fun i => ?_⟩
      cases i with
      | zero =>
          simpa using decode_encode_sample q hq.1 hq.2
      | succ j =>
          simpa using hih.2 j

/-- Closed witness for the round-trip theorem at a concrete sample list. -/
theorem pcm16le_roundtrip_witness :
    (∀ q ∈ ([1, -1, 0] : List ℚ), -1 ≤ q ∧ q ≤ 1)
    ∧ ((decodePcm16le (pcm16leBufferFromFloat32
          (([1, -1, 0] : List ℚ).map Sample.val))).length = ([1, -1, 0] : List ℚ).length
      ∧ ∀ i : ℕ,
          |(decodePcm16le (pcm16leBufferFromFloat32
              (([1, -1, 0] : List ℚ).map Sample.val))).getD i 0 -
            ([1, -1, 0] : List ℚ).getD i 0| ≤ 1 / 32767) :=
  ⟨by decide, pcm16le_roundtrip [1, -1, 0] (by decide)⟩

/-- Chat roles of the `messages` transcript list. -/
inductive Role
  | user
  | assistant
  | system
deriving DecidableEq

/-- One visible entry of the conversation transcript. -/
structure ChatMessage where
  role : Role
  text : String
deriving DecidableEq

/-- The `status` state of the voice page. -/
inductive Status
  | disconnected
  | connecting
  | idle
  | running
  | finalizing
deriving DecidableEq

/-- A message sent on the websocket by the client. -/
inductive OutMsg
  | endSignal
  | cancelSignal
  | audioFrame (bytes : List ℕ)
deriving DecidableEq

/-- The client's mutable state: React `status`/`messages` state plus the
refs of the component (`ttsQueueRef`, `ttsPlayingRef`, `ttsSawChunksRef`,
`assistantStreamingRef`, `assistantHadDeltaRef`, `finalizeSentRef`,
`playbackRef`, `startedMsRef`, `lastSpeechMsRef`).  Decoded audio buffers are
identified by natural numbers.  `started` is the observation trace of
buffers handed to `AudioBufferSourceNode.start()`, in start order.
`wsOpen` models `ws.readyState === WebSocket.OPEN`; `ctxReady` models
`ctxRef.current` and `outGainRef.current` being non-null. -/
structure ClientState where
  status : Status
  pendingTranscript : String
  messages : List ChatMessage
  ttsQueue : List ℕ
  ttsPlaying : Bool
  ttsSawChunks : Bool
  assistantStreaming : Bool
  assistantHadDelta : Bool
  finalizeSent : Bool
  playback : Option ℕ
  started : List ℕ
  startedMs : ℚ
  lastSpeechMs : ℚ
  wsOpen : Bool
  ctxReady : Bool
deriving DecidableEq

/-- `prev.length > 0 && prev[prev.length - 1]?.role === "assistant"`. -/
def lastIsAssistant (msgs : List ChatMessage) : Bool :=
  match msgs.getLast? with
  | some m => decide (m.role = Role.assistant)
  | none => false

/-- The `assistant_message` branch of `ws.onmessage`: drop an exact repeat of
the trailing assistant message, replace the trailing streamed assistant
message when deltas were seen, otherwise append; then clear the streaming
flags. -/
def handleAssistantMessage (finalText : String) (s : ClientState) : ClientState :=
  let msgs :=
    if s.messages.getLast? = some { role := Role.assistant, text := finalText } then
      s.messages
    else if s.assistantHadDelta && lastIsAssistant s.messages then
      s.messages.dropLast ++ [{ role := Role.assistant, text := finalText }]
    else
      s.messages ++ [{ role := Role.assistant, text := finalText }]
  { s with messages := msgs, assistantStreaming := false, assistantHadDelta := false }

/-- The `assistant_delta` branch of `ws.onmessage`: ignore empty deltas, mark
streaming, and extend the trailing assistant message (or open a new one). -/
def handleAssistantDelta (delta : String) (s : ClientState) : ClientState :=
  if delta = "" then s
  else
    let s1 := { s with assistantStreaming := true, assistantHadDelta := true }
    let msgs :=
      match s1.messages.getLast? with
      | some last =>
          if s1.assistantStreaming && decide (last.role = Role.assistant) then
            s1.messages.dropLast ++
              [{ role := Role.assistant, text := last.text ++ delta }]
          else
            s1.messages ++ [{ role := Role.assistant, text := delta }]
      | none => s1.messages ++ [{ role := Role.assistant, text := delta }]
    { s1 with messages := msgs }

/-- `playNext` from the `tts_chunk` branch: shift the queue; an empty queue
clears the playing flag, otherwise the head starts playing (stopping any
previous source). -/
def playNext (s : ClientState) : ClientState :=
  match s.ttsQueue with
  | [] => { s with ttsPlaying := false }
  | next :: rest =>
      { s with ttsQueue := rest, ttsPlaying := true,
               playback := some next, started := s.started ++ [next] }

/-- `enqueue` from the `tts_chunk` branch: push the decoded buffer; if
nothing is playing, start draining immediately. -/
def enqueue (b : ℕ) (s : ClientState) : ClientState :=
  let s1 := { s with ttsQueue := s.ttsQueue ++ [b] }
  if s1.ttsPlaying then s1 else playNext s1

/-- The `tts_chunk` branch of `ws.onmessage`.  The saw-chunks flag is set as
soon as the event arrives (before decoding); `none` stands for an empty
`wav_b64` payload or a failed `decodeAudioData` (both ignored). -/
def handleTtsChunk (buf : Option ℕ) (s : ClientState) : ClientState :=
  if !s.ctxReady then s
  else
    let s1 := { s with ttsSawChunks := true }
    match buf with
    | none => s1
    | some b => enqueue b s1

/-- `src.onended` of the queue player: play the next queued buffer. -/
def handleEnded (s : ClientState) : ClientState :=
  playNext s

/-- The legacy `tts_audio` branch of `ws.onmessage`: ignored entirely once
chunked TTS was seen this turn; otherwise it replaces any current playback
with the single decoded WAV (without touching the chunk queue). -/
def handleTtsAudio (buf : Option ℕ) (s : ClientState) : ClientState :=
  if s.ttsSawChunks then s
  else if !s.ctxReady then s
  else
    match buf with
    | none => s
    | some b => { s with playback := some b, started := s.started ++ [b] }

/-- The `done` branch of `ws.onmessage`: turn boundary, reset the per-turn
flags and return to idle. -/
def handleDone (s : ClientState) : ClientState :=
  { s with ttsSawChunks := false, assistantStreaming := false,
           assistantHadDelta := false, finalizeSent := false,
           status := Status.idle }

/-- The `error` branch of `ws.onmessage`: record a visible system message;
nothing else changes. -/
def handleError (message : String) (s : ClientState) : ClientState :=
  { s with messages := s.messages ++ [{ role := Role.system, text := message }] }

/-- The `cancelled` branch of `ws.onmessage`: stop playback immediately,
flush the queue, reset per-turn flags, return to idle. -/
def handleCancelled (s : ClientState) : ClientState :=
  { s with playback := none, ttsQueue := [], ttsPlaying := false,
           ttsSawChunks := false, assistantStreaming := false,
           assistantHadDelta := false, finalizeSent := false,
           status := Status.idle }

/-- The `partial_transcript` branch of `ws.onmessage`. -/
def handleInterimTranscript (text : String) (s : ClientState) : ClientState :=
  { s with pendingTranscript := text }

/-- The `final_transcript` branch of `ws.onmessage`. -/
def handleFinalTranscript (text : String) (s : ClientState) : ClientState :=
  { s with pendingTranscript := "",
           messages := s.messages ++ [{ role := Role.user, text := text }] }

/-- `ws.onclose`: `cleanupCapture` + `cleanupAll` + status `disconnected`. -/
def handleClose (s : ClientState) : ClientState :=
  { s with playback := none, ttsQueue := [], ttsPlaying := false,
           ttsSawChunks := false, ctxReady := false,
           status := Status.disconnected, wsOpen := false }

/-- `stop(cancel)` from page.tsx.  Non-cancel stops are guarded by
`finalizeSentRef`; with no open socket everything is torn down; a cancel
sends `cancel` and returns to idle; otherwise the finalize guard is set,
status becomes `finalizing` and one `end` is sent. -/
def stop (cancel : Bool) (s : ClientState) : ClientState × List OutMsg :=
  if !cancel && s.finalizeSent then (s, [])
  else if !s.wsOpen then
    ({ s with playback := none, ttsQueue := [], ttsPlaying := false,
              ttsSawChunks := false, ctxReady := false,
              status := Status.disconnected, wsOpen := false }, [])
  else if cancel then
    ({ s with finalizeSent := false, status := Status.idle },
     [OutMsg.cancelSignal])
  else
    ({ s with finalizeSent := true, status := Status.finalizing },
     [OutMsg.endSignal])

/-- Sum of squares of a frame, `none` once a NaN poisons the sum (mirroring
IEEE NaN propagation in `rmsLevel`). -/
def sumSqOpt : List Sample → Option ℚ
  | [] => some 0
  | .nan :: _ => none
  | .val q :: rest => (sumSqOpt rest).map (fun t => q * q + t)

/-- The square of `rmsLevel(frame)`: the mean of squares (`none` for a NaN
result).  `rmsLevel` itself is the square root of this. -/
def rmsLevelSqOpt (frame : List Sample) : Option ℚ :=
  (sumSqOpt frame).map (fun t => if frame.length = 0 then 0 else t / frame.length)

/-- `lvl >= speechThreshold` with `speechThreshold = 0.02`.  Since both
sides are non-negative this is equivalent to comparing the squares, which
keeps the embedding rational: `sqrt m ≥ 0.02 ↔ m ≥ 0.0004`.  A NaN level
compares false, as in IEEE arithmetic. -/
def speechTest (frame : List Sample) : Bool :=
  match rmsLevelSqOpt frame with
  | some m => decide ((2 / 100 : ℚ) * (2 / 100) ≤ m)
  | none => false

/-- The silence-timer condition of `worklet.port.onmessage`:
`statusRef.current === "running" && now - startedMsRef.current > 1200 &&
now - lastSpeechMsRef.current > 900`. -/
def frameAutoEnd (s : ClientState) (now : ℚ) : Bool :=
  decide (s.status = Status.running) && decide (now - s.startedMs > 1200) &&
    decide (now - s.lastSpeechMs > 900)

/-- `worklet.port.onmessage`: drop everything if the socket is not open or
the frame is empty; refresh the last-speech clock on a loud frame; auto-end
via `stop(false)` when the silence timer fires; otherwise drop the frame
under backpressure (`bufferedAmount > 1_000_000`) or send it as binary
PCM16LE. -/
def onFrame (frame : List Sample) (now : ℚ) (buffered : ℕ)
    (s : ClientState) : ClientState × List OutMsg :=
  if !s.wsOpen then (s, [])
  else if frame.length = 0 then (s, [])
  else
    let s1 := if speechTest frame then { s with lastSpeechMs := now } else s
    if frameAutoEnd s1 now then stop false s1
    else if 1000000 < buffered then (s1, [])
    else (s1, [OutMsg.audioFrame (pcm16leBufferFromFloat32 frame)])

/-- Events the client reacts to: the stop/cancel gestures, a captured mic
frame (with its arrival time and the socket's buffered byte count), the
server messages, the end of a playback source, and socket close. -/
inductive ClientEv
  | stopEv (cancel : Bool)
  | frameEv (frame : List Sample) (now : ℚ) (buffered : ℕ)
  | srvInterimTranscript (text : String)
  | srvFinalTranscript (text : String)
  | srvAssistantDelta (delta : String)
  | srvAssistantMessage (text : String)
  | srvTtsChunk (buf : Option ℕ)
  | srvTtsAudio (buf : Option ℕ)
  | srvDone
  | srvError (message : String)
  | srvCancelled
  | endedEv
  | wsCloseEv
deriving DecidableEq

/-- One event step of the client. -/
def step (s : ClientState) : ClientEv → ClientState × List OutMsg
  | .stopEv c => stop c s
  | .frameEv frame now buffered => onFrame frame now buffered s
  | .srvInterimTranscript t => (handleInterimTranscript t s, [])
  | .srvFinalTranscript t => (handleFinalTranscript t s, [])
  | .srvAssistantDelta d => (handleAssistantDelta d s, [])
  | .srvAssistantMessage t => (handleAssistantMessage t s, [])
  | .srvTtsChunk b => (handleTtsChunk b s, [])
  | .srvTtsAudio b => (handleTtsAudio b s, [])
  | .srvDone => (handleDone s, [])
  | .srvError m => (handleError m s, [])
  | .srvCancelled => (handleCancelled s, [])
  | .endedEv => (handleEnded s, [])
  | .wsCloseEv => (handleClose s, [])

/-- Process a list of events in order, collecting everything sent. -/
def run (s : ClientState) : List ClientEv → ClientState × List OutMsg
  | [] => (s, [])
  | e :: rest =>
      let p := step s e
      let q := run p.1 rest
      (q.1, p.2 ++ q.2)

/-- Number of `end` signals in a list of sent messages. -/
def countEnd : List OutMsg → ℕ
  | [] => 0
  | .endSignal :: rest => countEnd rest + 1
  | _ :: rest => countEnd rest

/-- The client state right after the component mounts. -/
def initialState : ClientState :=
  { status := Status.idle, pendingTranscript := "", messages := [],
    ttsQueue := [], ttsPlaying := false, ttsSawChunks := false,
    assistantStreaming := false, assistantHadDelta := false,
    finalizeSent := false, playback := none, started := [],
    startedMs := 0, lastSpeechMs := 0, wsOpen := false, ctxReady := false }

/-- A state with an open socket and a live audio context, as after
`ensureSocket` and `ensureAudioContext` have succeeded. -/
def sessionState : ClientState :=
  { initialState with wsOpen := true, ctxReady := true }

@[simp] lemma countEnd_nil : countEnd [] = 0 := rfl

@[simp] lemma countEnd_cons_end (l : List OutMsg) :
    countEnd (OutMsg.endSignal :: l) = countEnd l + 1 := rfl

@[simp] lemma countEnd_cons_cancel (l : List OutMsg) :
    countEnd (OutMsg.cancelSignal :: l) = countEnd l := rfl

@[simp] lemma countEnd_cons_audio (b : List ℕ) (l : List OutMsg) :
    countEnd (OutMsg.audioFrame b :: l) = countEnd l := rfl

@[simp] lemma countEnd_append (l1 l2 : List OutMsg) :
    countEnd (l1 ++ l2) = countEnd l1 + countEnd l2 := by
  induction l1 with
  | nil => simp
  | cons m rest ih =>
      cases m with
      | endSignal => simp [ih]; omega
      | cancelSignal => simp [ih]
      | audioFrame b => simp [ih]

/-- The in-turn events of one capture turn that are not a cancel: the
non-cancel stop gesture (also what the silence timer invokes) and captured
mic frames. -/
def isTurnEv : ClientEv → Bool
  | .stopEv false => true
  | .frameEv _ _ _ => true
  | _ => false

lemma stop_false_of_guard {s : ClientState} (h : s.finalizeSent = true) :
    stop false s = (s, []) := by
  simp [stop, h]

/-- Everything `worklet.port.onmessage` can do: drop the event, invoke the
auto-endpoint `stop(false)`, drop the frame under backpressure, or send the
frame; the state is touched at most in `lastSpeechMs` before that. -/
lemma onFrame_cases (frame : List Sample) (now : ℚ) (buffered : ℕ)
    (s : ClientState) :
    onFrame frame now buffered s = (s, [])
    ∨ ∃ s1 : ClientState,
        (s1 = s ∨ s1 = { s with lastSpeechMs := now })
        ∧ (onFrame frame now buffered s = stop false s1
           ∨ onFrame frame now buffered s = (s1, [])
           ∨ onFrame frame now buffered s =
              (s1, [OutMsg.audioFrame (pcm16leBufferFromFloat32 frame)])) := by
  by_cases hws : s.wsOpen
  · by_cases hlen : frame.length = 0
    · left
      simp [onFrame, hws, hlen]
    · have hred : onFrame frame now buffered s =
          (let s1 := if speechTest frame then { s with lastSpeechMs := now } else s
           if frameAutoEnd s1 now then stop false s1
           else if 1000000 < buffered then (s1, [])
           else (s1, [OutMsg.audioFrame (pcm16leBufferFromFloat32 frame)])) := by
        simp [onFrame, hws, hlen]
      right
      refine ⟨if speechTest frame then { s with lastSpeechMs := now } else s,
        ?_, ?_⟩
      · by_cases hst : speechTest frame <;> simp [hst]
      · rw [hred]
        by_cases hae : frameAutoEnd
            (if speechTest frame then { s with lastSpeechMs := now } else s) now
        · left
          simp [hae]
        · right
          by_cases hbuf : 1000000 < buffered
          · left
            simp [hae, hbuf]
          · right
            simp [hae, hbuf]
  · left
    have hws2 : s.wsOpen = false := by
      simpa using hws
    simp [onFrame, hws2]

/-- Once the finalize guard is set, a non-cancel stop or a mic frame keeps
it set and sends no `end`. -/
lemma turnEv_step_of_guard {s : ClientState} {e : ClientEv}
    (he : isTurnEv e = true) (h : s.finalizeSent = true) :
    (step s e).1.finalizeSent = true ∧ countEnd (step s e).2 = 0 := by
  cases e with
  | stopEv c =>
      cases c with
      | false => simp [step, stop_false_of_guard h, h]
      | true => simp [isTurnEv] at he
  | frameEv frame now buffered =>
      show (onFrame frame now buffered s).1.finalizeSent = true
        ∧ countEnd (onFrame frame now buffered s).2 = 0
      rcases onFrame_cases frame now buffered s with hc | ⟨s1, hs1, hc⟩
      · rw [hc]
        exact ⟨h, rfl⟩
      · have hg : s1.finalizeSent = true := by
          rcases hs1 with rfl | rfl
          · exact h
          · simpa using h
        rcases hc with hc | hc | hc <;> rw [hc]
        · rw [stop_false_of_guard hg]
          exact ⟨hg, rfl⟩
        · exact ⟨hg, rfl⟩
        · exact ⟨hg, rfl⟩
  | srvInterimTranscript t => simp [isTurnEv] at he
  | srvFinalTranscript t => simp [isTurnEv] at he
  | srvAssistantDelta d => simp [isTurnEv] at he
  | srvAssistantMessage t => simp [isTurnEv] at he
  | srvTtsChunk b => simp [isTurnEv] at he
  | srvTtsAudio b => simp [isTurnEv] at he
  | srvDone => simp [isTurnEv] at he
  | srvError m => simp [isTurnEv] at he
  | srvCancelled => simp [isTurnEv] at he
  | endedEv => simp [isTurnEv] at he
  | wsCloseEv => simp [isTurnEv] at he

lemma run_turnEvs_of_guard :
    ∀ (evs : List ClientEv) (s : ClientState), evs.all isTurnEv = true →
      s.finalizeSent = true →
      countEnd (run s evs).2 = 0 ∧ (run s evs).1.finalizeSent = true := by
  intro evs
  induction evs with
  | nil => intro s _ h; exact ⟨rfl, h⟩
  | cons e rest ih =>
      intro s hall h
      simp only [List.all_cons, Bool.and_eq_true] at hall
      have hstep := turnEv_step_of_guard hall.1 h
      have hrest := ih (step s e).1 hall.2 hstep.1
      simp only [run, countEnd_append, hstep.2, hrest.1, hrest.2]
      trivial

/-- A non-cancel stop sends at most one `end`, and if it sends one the
finalize guard is set afterwards. -/
lemma stop_false_cases (s : ClientState) :
    countEnd (stop false s).2 ≤ 1 ∧
      (countEnd (stop false s).2 = 1 → (stop false s).1.finalizeSent = true) := by
  simp only [stop]
  split_ifs <;> simp

lemma turnEv_step_le_one {s : ClientState} {e : ClientEv}
    (he : isTurnEv e = true) :
    countEnd (step s e).2 ≤ 1 ∧
      (countEnd (step s e).2 = 1 → (step s e).1.finalizeSent = true) := by
  cases e with
  | stopEv c =>
      cases c with
      | false => simpa [step] using stop_false_cases s
      | true => simp [isTurnEv] at he
  | frameEv frame now buffered =>
      show countEnd (onFrame frame now buffered s).2 ≤ 1
        ∧ (countEnd (onFrame frame now buffered s).2 = 1 →
            (onFrame frame now buffered s).1.finalizeSent = true)
      rcases onFrame_cases frame now buffered s with hc | ⟨s1, _, hc⟩
      · rw [hc]
        simp
      · rcases hc with hc | hc | hc <;> rw [hc]
        · exact stop_false_cases s1
        · simp
        · simp
  | srvInterimTranscript t => simp [isTurnEv] at he
  | srvFinalTranscript t => simp [isTurnEv] at he
  | srvAssistantDelta d => simp [isTurnEv] at he
  | srvAssistantMessage t => simp [isTurnEv] at he
  | srvTtsChunk b => simp [isTurnEv] at he
  | srvTtsAudio b => simp [isTurnEv] at he
  | srvDone => simp [isTurnEv] at he
  | srvError m => simp [isTurnEv] at he
  | srvCancelled => simp [isTurnEv] at he
  | endedEv => simp [isTurnEv] at he
  | wsCloseEv => simp [isTurnEv] at he

lemma run_turnEvs_le_one :
    ∀ (evs : List ClientEv) (s : ClientState), evs.all isTurnEv = true →
      countEnd (run s evs).2 ≤ 1 := by
  intro evs
  induction evs with
  | nil => intro s _; simp [run]
  | cons e rest ih =>
      intro s hall
      simp only [List.all_cons, Bool.and_eq_true] at hall
      have hstep := turnEv_step_le_one (s := s) hall.1
      simp only [run, countEnd_append]
      by_cases hc : countEnd (step s e).2 = 0
      · have := ih (step s e).1 hall.2
        omega
      · have h1 : countEnd (step s e).2 = 1 := by omega
        have hguard := hstep.2 h1
        have := (run_turnEvs_of_guard rest (step s e).1 hall.2 hguard).1
        omega

/-- Claim C1: within one turn at most one `end` signal ever reaches the
transport.  Once a non-cancel stop has run with the socket open it sends
exactly one `end` and sets the finalize guard; from a guard-set state every
further non-cancel stop and every further mic frame (silent or not) sends no
`end` at all, so any in-turn event sequence carries at most one `end` and the
server answers with one `final_transcript` for the turn. -/
theorem end_signal_sent_at_most_once :
    (∀ (s : ClientState) (evs : List ClientEv), evs.all isTurnEv = true →
        countEnd (run s evs).2 ≤ 1
        ∧ (s.finalizeSent = true → countEnd (run s evs).2 = 0))
    ∧ (∀ s : ClientState, s.finalizeSent = false → s.wsOpen = true →
        countEnd (stop false s).2 = 1 ∧ (stop false s).1.finalizeSent = true) := by
  constructor
  · intro s evs hall
    exact ⟨run_turnEvs_le_one evs s hall,
      fun h => (run_turnEvs_of_guard evs s hall h).1⟩
  · intro s h1 h2
    simp [stop, h1, h2]

/-- A state captured mid-turn: socket open, audio live, status `running`. -/
def runningState : ClientState :=
  { sessionState with status := Status.running }

/-- Closed witness for claim C1: a double stop gesture from a running state
sends at most one `end`. -/
theorem end_signal_sent_at_most_once_witness :
    ([ClientEv.stopEv false, ClientEv.stopEv false].all isTurnEv = true)
    ∧ countEnd (run runningState [ClientEv.stopEv false, ClientEv.stopEv false]).2 ≤ 1 :=
  ⟨by decide,
   (end_signal_sent_at_most_once.1 runningState
     [ClientEv.stopEv false, ClientEv.stopEv false] (by decide)).1⟩

/-- Claim C2: an `assistant_message` whose text equals the trailing
assistant message (the delta-accumulated text, or an identical previous
final) leaves the visible transcript unchanged; the spec's two scenarios
produce exactly one visible message each. -/
theorem assistant_message_dedup (s : ClientState) (finalText : String)
    (h : s.messages.getLast? = some { role := Role.assistant, text := finalText }) :
    (handleAssistantMessage finalText s).messages = s.messages
    ∧ (run sessionState
        [ClientEv.srvAssistantDelta "Hello", ClientEv.srvAssistantDelta " world",
         ClientEv.srvAssistantMessage "Hello world"]).1.messages =
        [{ role := Role.assistant, text := "Hello world" }]
    ∧ (run sessionState
        [ClientEv.srvAssistantMessage "Same",
         ClientEv.srvAssistantMessage "Same"]).1.messages =
        [{ role := Role.assistant, text := "Same" }] := by
  refine ⟨?_, by decide, by decide⟩
  simp [handleAssistantMessage, h]

/-- Closed witness for claim C2 at a concrete state whose trailing message
is the assistant text being repeated. -/
theorem assistant_message_dedup_witness :
    ({ sessionState with
        messages := [{ role := Role.assistant, text := "Same" }] }
      : ClientState).messages.getLast? =
        some { role := Role.assistant, text := "Same" }
    ∧ (handleAssistantMessage "Same"
        { sessionState with
          messages := [{ role := Role.assistant, text := "Same" }] }).messages =
      ({ sessionState with
        messages := [{ role := Role.assistant, text := "Same" }] }
        : ClientState).messages :=
  ⟨by decide,
   (assistant_message_dedup
     { sessionState with
       messages := [{ role := Role.assistant, text := "Same" }] }
     "Same" (by decide)).1⟩

/-- Claim C3: processing `cancelled` empties the playback queue, clears the
playing flag and stops the current source immediately; nothing flushed is
ever started afterwards (a subsequent `onended` firing starts nothing), and
the 3-chunk scenario ends with queue length 0. -/
theorem cancelled_flushes_playback (s : ClientState) :
    (handleCancelled s).ttsQueue = []
    ∧ (handleCancelled s).ttsPlaying = false
    ∧ (handleCancelled s).playback = none
    ∧ (handleCancelled s).started = s.started
    ∧ (handleEnded (handleCancelled s)).started = s.started
    ∧ (handleEnded (handleCancelled s)).ttsPlaying = false
    ∧ (run sessionState
        [ClientEv.srvTtsChunk (some 1), ClientEv.srvTtsChunk (some 2),
         ClientEv.srvTtsChunk (some 3), ClientEv.srvCancelled]).1.ttsQueue.length
        = 0 := by
  refine ⟨rfl, rfl, rfl, rfl, ?_, ?_, by decide⟩
  · simp [handleEnded, handleCancelled, playNext]
  · simp [handleEnded, handleCancelled, playNext]

/-- The events that drive the playback queue: a decoded `tts_chunk` and the
completion of a playing source. -/
def isQueueEv : ClientEv → Bool
  | .srvTtsChunk (some _) => true
  | .endedEv => true
  | _ => false

/-- The buffers enqueued by a list of events, in arrival order. -/
def enqueuedBufs : List ClientEv → List ℕ
  | [] => []
  | .srvTtsChunk (some b) :: rest => b :: enqueuedBufs rest
  | _ :: rest => enqueuedBufs rest

/-- `playNext` hands the queue head to the audio output and keeps
`started ++ ttsQueue` intact. -/
lemma playNext_trace (s : ClientState) :
    (playNext s).started ++ (playNext s).ttsQueue = s.started ++ s.ttsQueue
    ∧ ((playNext s).ttsPlaying = false → (playNext s).ttsQueue = []) := by
  cases hq : s.ttsQueue with
  | nil => simp [playNext, hq]
  | cons b rest => simp [playNext, hq]

lemma enqueue_trace (b : ℕ) (s : ClientState) :
    (enqueue b s).started ++ (enqueue b s).ttsQueue =
        s.started ++ s.ttsQueue ++ [b]
    ∧ ((enqueue b s).ttsPlaying = false → (enqueue b s).ttsQueue = []) := by
  unfold enqueue
  by_cases hp : s.ttsPlaying
  · simp [hp]
  · have hp2 : s.ttsPlaying = false := by simpa using hp
    have := playNext_trace { s with ttsQueue := s.ttsQueue ++ [b] }
    simpa [hp2] using this

lemma playNext_ctxReady (s : ClientState) :
    (playNext s).ctxReady = s.ctxReady := by
  cases hq : s.ttsQueue <;> simp [playNext, hq]

lemma enqueue_ctxReady (b : ℕ) (s : ClientState) :
    (enqueue b s).ctxReady = s.ctxReady := by
  unfold enqueue
  by_cases hp : s.ttsPlaying = true
  · simp [hp]
  · simp [hp, playNext_ctxReady]

/-- One queue event extends the played-then-pending sequence exactly by the
enqueued buffer, preserves the audio context, and keeps the queue empty
whenever nothing is playing. -/
lemma queueEv_step (e : ClientEv) (s : ClientState)
    (he : isQueueEv e = true) (hctx : s.ctxReady = true) :
    (step s e).1.started ++ (step s e).1.ttsQueue =
        s.started ++ s.ttsQueue ++ enqueuedBufs [e]
    ∧ (step s e).1.ctxReady = true
    ∧ ((step s e).1.ttsPlaying = false → (step s e).1.ttsQueue = []) := by
  cases e with
  | srvTtsChunk b =>
      cases b with
      | none => simp [isQueueEv] at he
      | some v =>
          have h1 : step s (ClientEv.srvTtsChunk (some v)) =
              (enqueue v { s with ttsSawChunks := true }, []) := by
            simp [step, handleTtsChunk, hctx]
          rw [h1]
          have ht := enqueue_trace v { s with ttsSawChunks := true }
          refine ⟨by simpa [enqueuedBufs] using ht.1, ?_, ht.2⟩
          rw [enqueue_ctxReady]
          exact hctx
  | endedEv =>
      have ht := playNext_trace s
      refine ⟨by simpa [step, handleEnded, enqueuedBufs] using ht.1, ?_, ht.2⟩
      show (playNext s).ctxReady = true
      rw [playNext_ctxReady]
      exact hctx
  | stopEv c => simp [isQueueEv] at he
  | frameEv f n buf => simp [isQueueEv] at he
  | srvInterimTranscript t => simp [isQueueEv] at he
  | srvFinalTranscript t => simp [isQueueEv] at he
  | srvAssistantDelta d => simp [isQueueEv] at he
  | srvAssistantMessage t => simp [isQueueEv] at he
  | srvTtsAudio b2 => simp [isQueueEv] at he
  | srvDone => simp [isQueueEv] at he
  | srvError m => simp [isQueueEv] at he
  | srvCancelled => simp [isQueueEv] at he
  | wsCloseEv => simp [isQueueEv] at he

@[simp] lemma enqueuedBufs_cons_chunk (b : ℕ) (rest : List ClientEv) :
    enqueuedBufs (ClientEv.srvTtsChunk (some b) :: rest) = b :: enqueuedBufs rest :=
  rfl

lemma enqueuedBufs_singleton_append (e : ClientEv) (rest : List ClientEv) :
    enqueuedBufs (e :: rest) = enqueuedBufs [e] ++ enqueuedBufs rest := by
  cases e with
  | srvTtsChunk b => cases b <;> simp [enqueuedBufs]
  | stopEv c => simp [enqueuedBufs]
  | frameEv f n buf => simp [enqueuedBufs]
  | srvInterimTranscript t => simp [enqueuedBufs]
  | srvFinalTranscript t => simp [enqueuedBufs]
  | srvAssistantDelta d => simp [enqueuedBufs]
  | srvAssistantMessage t => simp [enqueuedBufs]
  | srvTtsAudio b => simp [enqueuedBufs]
  | srvDone => simp [enqueuedBufs]
  | srvError m => simp [enqueuedBufs]
  | srvCancelled => simp [enqueuedBufs]
  | endedEv => simp [enqueuedBufs]
  | wsCloseEv => simp [enqueuedBufs]

/-- Running any sequence of queue events keeps the started trace followed by
the pending queue equal to the prior trace plus every enqueued buffer in
arrival order. -/
lemma run_queueEvs :
    ∀ (evs : List ClientEv) (s : ClientState), evs.all isQueueEv = true →
      s.ctxReady = true →
      (run s evs).1.started ++ (run s evs).1.ttsQueue =
          s.started ++ s.ttsQueue ++ enqueuedBufs evs
      ∧ (run s evs).1.ctxReady = true
      ∧ (((run s evs).1.ttsPlaying = false → (run s evs).1.ttsQueue = []) ∨
          evs = []) := by
  intro evs
  induction evs with
  | nil =>
      intro s _ hctx
      refine ⟨by simp [run, enqueuedBufs], hctx, Or.inr rfl⟩
  | cons e rest ih =>
      intro s hall hctx
      simp only [List.all_cons, Bool.and_eq_true] at hall
      have hstep := queueEv_step e s hall.1 hctx
      have hrest := ih (step s e).1 hall.2 hstep.2.1
      have htrace : (run s (e :: rest)).1 = (run (step s e).1 rest).1 := by
        simp [run]
      refine ⟨?_, by rw [htrace]; exact hrest.2.1, ?_⟩
      · rw [htrace, hrest.1, hstep.1]
        rw [List.append_assoc, (enqueuedBufs_singleton_append e rest).symm]
      · rcases hrest.2.2 with hp | hnil
        · exact Or.inl (by rw [htrace]; exact hp)
        · subst hnil
          refine Or.inl ?_
          have : (run (step s e).1 []).1 = (step s e).1 := rfl
          rw [htrace, this]
          exact hstep.2.2

/-- Claim C4: the playback queue is strictly FIFO.  Over any sequence of
chunk arrivals and playback completions from a fresh session, the buffers
handed to the audio output followed by the still-pending queue are exactly
the enqueued buffers in arrival order (so nothing is reordered, dropped or
duplicated, and the started trace is a prefix of the enqueue order); an
enqueue into an empty, non-playing queue starts that buffer immediately,
and each completion starts exactly the next pending buffer. -/
theorem playback_queue_fifo :
    (∀ evs : List ClientEv, evs.all isQueueEv = true →
        (run sessionState evs).1.started ++ (run sessionState evs).1.ttsQueue =
          enqueuedBufs evs
        ∧ ((run sessionState evs).1.ttsPlaying = false →
            (run sessionState evs).1.ttsQueue = []))
    ∧ (∀ (s : ClientState) (b : ℕ), s.ctxReady = true → s.ttsPlaying = false →
        s.ttsQueue = [] →
        (handleTtsChunk (some b) s).playback = some b
        ∧ (handleTtsChunk (some b) s).started = s.started ++ [b]
        ∧ (handleTtsChunk (some b) s).ttsPlaying = true
        ∧ (handleTtsChunk (some b) s).ttsQueue = [])
    ∧ (∀ (s : ClientState) (b : ℕ) (rest : List ℕ), s.ttsQueue = b :: rest →
        (handleEnded s).playback = some b
        ∧ (handleEnded s).started = s.started ++ [b]
        ∧ (handleEnded s).ttsQueue = rest
        ∧ (handleEnded s).ttsPlaying = true) := by
  refine ⟨?_, ?_, ?_⟩
  · intro evs hall
    have h := run_queueEvs evs sessionState hall rfl
    refine ⟨by simpa [sessionState, initialState] using h.1, ?_⟩
    rcases h.2.2 with hp | hnil
    · exact hp
    · subst hnil
      intro
      rfl
  · intro s b hctx hp hq
    simp [handleTtsChunk, hctx, enqueue, hp, hq, playNext]
  · intro s b rest hq
    simp [handleEnded, playNext, hq]

/-- Closed witness for claim C4: two chunks then one completion, starting
from a fresh session. -/
theorem playback_queue_fifo_witness :
    ([ClientEv.srvTtsChunk (some 5), ClientEv.srvTtsChunk (some 7),
        ClientEv.endedEv].all isQueueEv = true)
    ∧ (run sessionState
          [ClientEv.srvTtsChunk (some 5), ClientEv.srvTtsChunk (some 7),
           ClientEv.endedEv]).1.started ++
        (run sessionState
          [ClientEv.srvTtsChunk (some 5), ClientEv.srvTtsChunk (some 7),
           ClientEv.endedEv]).1.ttsQueue =
        enqueuedBufs
          [ClientEv.srvTtsChunk (some 5), ClientEv.srvTtsChunk (some 7),
           ClientEv.endedEv] :=
  ⟨by decide,
   (playback_queue_fifo.1
     [ClientEv.srvTtsChunk (some 5), ClientEv.srvTtsChunk (some 7),
      ClientEv.endedEv] (by decide)).1⟩

/-- A one-sample silent frame: its RMS level 0 is below the 0.02 speech
threshold. -/
lemma speechTest_silent : speechTest [Sample.val 0] = false := by
  have h : rmsLevelSqOpt [Sample.val 0] = some 0 := by
    simp [rmsLevelSqOpt, sumSqOpt]
  simp only [speechTest, h]
  norm_num

/-- Claim C5 counterexample: with exactly the minimum utterance duration
elapsed (1200 ms, so "at least 1200 ms has elapsed" holds), ample trailing
silence and the session running, the code does not signal end-of-speech,
because its elapsed-time comparison is strict. -/
theorem auto_endpoint_at_boundary_no_signal :
    runningState.status = Status.running
    ∧ (1200 : ℚ) - runningState.startedMs ≥ 1200
    ∧ (1200 : ℚ) - runningState.lastSpeechMs > 900
    ∧ speechTest [Sample.val 0] = false
    ∧ runningState.wsOpen = true
    ∧ frameAutoEnd runningState 1200 = false
    ∧ countEnd (onFrame [Sample.val 0] 1200 0 runningState).2 = 0
    ∧ (onFrame [Sample.val 0] 1200 0 runningState).1.status = Status.running := by
  have hae : frameAutoEnd runningState 1200 = false := by
    simp only [frameAutoEnd, runningState, sessionState, initialState]
    norm_num
  have hof : onFrame [Sample.val 0] 1200 0 runningState =
      (runningState,
       [OutMsg.audioFrame (pcm16leBufferFromFloat32 [Sample.val 0])]) := by
    simp [onFrame, runningState, sessionState, initialState, speechTest_silent]
    have := hae
    simp [runningState, sessionState, initialState] at this
    simp [this]
  refine ⟨rfl, by norm_num [runningState, sessionState, initialState],
    by norm_num [runningState, sessionState, initialState],
    speechTest_silent, rfl, hae, ?_, ?_⟩
  · rw [hof]
    rfl
  · rw [hof]
    rfl

/-- Claim C5 (amended): on a non-empty frame with the socket open, the
auto-endpoint invokes `stop(false)` exactly when the session is running,
strictly more than 1200 ms have elapsed since capture start, and the
trailing silence since the last frame whose RMS level reached 0.02 exceeds
900 ms; violating any condition leaves the turn running with no `end`
signalled, and a loud frame resets the silence clock first. -/
theorem auto_endpoint_strict_thresholds (s : ClientState) (frame : List Sample)
    (now : ℚ) (buffered : ℕ) (s1 : ClientState)
    (hws : s.wsOpen = true) (hlen : frame.length ≠ 0)
    (hs1 : s1 = if speechTest frame then { s with lastSpeechMs := now } else s) :
    (frameAutoEnd s1 now = true ↔
        (s1.status = Status.running ∧ now - s1.startedMs > 1200 ∧
          now - s1.lastSpeechMs > 900))
    ∧ (frameAutoEnd s1 now = true →
        onFrame frame now buffered s = stop false s1)
    ∧ (frameAutoEnd s1 now = false →
        countEnd (onFrame frame now buffered s).2 = 0)
    ∧ (s.status ≠ Status.running → frameAutoEnd s1 now = false)
    ∧ (speechTest frame = true → s1.lastSpeechMs = now)
    ∧ (speechTest frame = false → s1.lastSpeechMs = s.lastSpeechMs) := by
  have hred : onFrame frame now buffered s =
      (if frameAutoEnd s1 now then stop false s1
       else if 1000000 < buffered then (s1, [])
       else (s1, [OutMsg.audioFrame (pcm16leBufferFromFloat32 frame)])) := by
    rw [hs1]
    simp [onFrame, hws, hlen]
  refine ⟨?_, ?_, ?_, ?_, ?_, ?_⟩
  · simp [frameAutoEnd, Bool.and_eq_true, decide_eq_true_eq, and_assoc]
  · intro h
    rw [hred, if_pos h]
  · intro h
    rw [hred]
    simp only [h, Bool.false_eq_true, if_false]
    split <;> rfl
  · intro h
    have hst : s1.status = s.status := by
      rw [hs1]
      split <;> rfl
    simp [frameAutoEnd, hst, h]
  · intro h
    rw [hs1, if_pos h]
  · intro h
    rw [hs1, if_neg (by simp [h])]

/-- Closed witness for the amended claim C5 at a silent frame, 2000 ms into
the turn. -/
theorem auto_endpoint_strict_thresholds_witness :
    (runningState.wsOpen = true ∧ ([Sample.val 0] : List Sample).length ≠ 0
      ∧ runningState =
          (if speechTest [Sample.val 0] then
            { runningState with lastSpeechMs := (2000 : ℚ) } else runningState))
    ∧ (frameAutoEnd runningState 2000 = true →
        onFrame [Sample.val 0] 2000 0 runningState = stop false runningState) :=
  ⟨⟨rfl, by decide, by rw [if_neg (by simp [speechTest_silent])]⟩,
   (auto_endpoint_strict_thresholds runningState [Sample.val 0] 2000 0
     runningState rfl (by decide)
     (by rw [if_neg (by simp [speechTest_silent])])).2.1⟩

/-- Whether a sent message is a binary audio frame. -/
def isAudioFrameMsg : OutMsg → Bool
  | .audioFrame _ => true
  | _ => false

/-- `stop` never sends binary audio. -/
lemma stop_no_audio (c : Bool) (s : ClientState) :
    (stop c s).2.all (fun m => !isAudioFrameMsg m) = true := by
  simp only [stop]
  split_ifs <;> simp [isAudioFrameMsg]

/-- With the socket open, `stop` leaves the TTS queue alone. -/
lemma stop_ttsQueue_of_wsOpen (c : Bool) (s : ClientState)
    (hws : s.wsOpen = true) :
    (stop c s).1.ttsQueue = s.ttsQueue := by
  simp only [stop]
  split_ifs <;> simp_all

/-- Claim C8: when the socket's pending-write amount exceeds the 1,000,000
byte threshold, the capture frame handler never sends the newly captured
frame and buffers it nowhere (the TTS queue — the only queue in the client —
is untouched); the handler still returns normally (it is a total function).
The frame is simply dropped. -/
theorem backpressure_drops_frames (s : ClientState) (frame : List Sample)
    (now : ℚ) (buffered : ℕ) (h : 1000000 < buffered) :
    (onFrame frame now buffered s).2.all (fun m => !isAudioFrameMsg m) = true
    ∧ (onFrame frame now buffered s).1.ttsQueue = s.ttsQueue := by
  by_cases hws : s.wsOpen = true
  · by_cases hlen : frame.length = 0
    · simp [onFrame, hws, hlen]
    · have key : ∀ s1 : ClientState, s1.wsOpen = true → s1.ttsQueue = s.ttsQueue →
          ((if frameAutoEnd s1 now then stop false s1
            else if 1000000 < buffered then (s1, [])
            else (s1, [OutMsg.audioFrame
              (pcm16leBufferFromFloat32 frame)])).2.all
                (fun m => !isAudioFrameMsg m) = true
           ∧ (if frameAutoEnd s1 now then stop false s1
              else if 1000000 < buffered then (s1, [])
              else (s1, [OutMsg.audioFrame
                (pcm16leBufferFromFloat32 frame)])).1.ttsQueue = s.ttsQueue) := by
        intro s1 h1 h2
        by_cases hae : frameAutoEnd s1 now = true
        · simp only [hae, if_true]
          exact ⟨stop_no_audio false s1,
            by rw [stop_ttsQueue_of_wsOpen false s1 h1, h2]⟩
        · simp only [hae, Bool.false_eq_true, if_false, if_pos h]
          exact ⟨rfl, h2⟩
      have hof : onFrame frame now buffered s =
          (if frameAutoEnd
              (if speechTest frame then { s with lastSpeechMs := now } else s)
              now then
            stop false
              (if speechTest frame then { s with lastSpeechMs := now } else s)
          else if 1000000 < buffered then
            ((if speechTest frame then { s with lastSpeechMs := now } else s), [])
          else
            ((if speechTest frame then { s with lastSpeechMs := now } else s),
              [OutMsg.audioFrame (pcm16leBufferFromFloat32 frame)])) := by
        simp [onFrame, hws, hlen]
      rw [hof]
      exact key (if speechTest frame then { s with lastSpeechMs := now } else s)
        (by split <;> simpa) (by split <;> rfl)
  · have hws2 : s.wsOpen = false := by simpa using hws
    simp [onFrame, hws2]

/-- Closed witness for claim C8 at a congested socket. -/
theorem backpressure_drops_frames_witness :
    (1000000 < 1000001)
    ∧ (onFrame [Sample.val 0] 100 1000001 runningState).2.all
        (fun m => !isAudioFrameMsg m) = true :=
  ⟨by decide,
   (backpressure_drops_frames runningState [Sample.val 0] 100 1000001
     (by decide)).1⟩

/-- The server messages of the voice protocol (the `ws.onmessage` cases). -/
def isServerMsgEv : ClientEv → Bool
  | .srvInterimTranscript _ => true
  | .srvFinalTranscript _ => true
  | .srvAssistantDelta _ => true
  | .srvAssistantMessage _ => true
  | .srvTtsChunk _ => true
  | .srvTtsAudio _ => true
  | .srvDone => true
  | .srvError _ => true
  | .srvCancelled => true
  | _ => false

/-- The `start()` entry guard: a new turn can be started unless the page is
running, connecting or finalizing (same condition that disables the Start
button). -/
def startAllowed (s : ClientState) : Bool :=
  !(decide (s.status = Status.running) || decide (s.status = Status.connecting)
    || decide (s.status = Status.finalizing))

/-- Modelled from the spec: the backend session state machine is not part of
this repository (only the web client is under src).  Per the spec a stage
failure "emits a structured error and returns to Idle" (§4.2, §7), and
"across turns, one turn's done (or cancellation ack) strictly precedes the
next turn's first event" (§5), so the client observes an errored turn as the
structured `error` event followed by the turn-terminating `done` event. -/
def errorTurnEvents (message : String) : List ClientEv :=
  [ClientEv.srvError message, ClientEv.srvDone]

lemma playNext_status (s : ClientState) : (playNext s).status = s.status := by
  cases hq : s.ttsQueue <;> simp [playNext, hq]

lemma enqueue_status (b : ℕ) (s : ClientState) :
    (enqueue b s).status = s.status := by
  unfold enqueue
  by_cases hp : s.ttsPlaying = true
  · simp [hp]
  · simp [hp, playNext_status]

lemma handleTtsChunk_status (b : Option ℕ) (s : ClientState) :
    (handleTtsChunk b s).status = s.status := by
  unfold handleTtsChunk
  by_cases hc : s.ctxReady = true
  · cases b <;> simp [hc, enqueue_status]
  · have hc2 : s.ctxReady = false := by simpa using hc
    simp [hc2]

lemma handleTtsAudio_status (b : Option ℕ) (s : ClientState) :
    (handleTtsAudio b s).status = s.status := by
  unfold handleTtsAudio
  split_ifs
  · rfl
  · rfl
  · cases b <;> rfl

/-- Claim C9: a structured `error` event only records a visible system
message — it never changes the session status, and no server message at all
can move the client into the terminal `disconnected` state (only
`ws.onclose`, i.e. transport loss, does).  An errored turn, delivered per
the spec as `error` followed by the turn-terminating `done`, leaves the
transcript extended by the system message and the session idle, with a new
turn startable. -/
theorem error_keeps_session_usable (s : ClientState) (m : String) :
    ((run s (errorTurnEvents m)).1.messages =
        s.messages ++ [{ role := Role.system, text := m }]
      ∧ (run s (errorTurnEvents m)).1.status = Status.idle
      ∧ startAllowed (run s (errorTurnEvents m)).1 = true)
    ∧ (∀ (t : ClientState) (mm : String),
        (handleError mm t).status = t.status
        ∧ (handleError mm t).messages =
            t.messages ++ [{ role := Role.system, text := mm }])
    ∧ (∀ (t : ClientState) (e : ClientEv), isServerMsgEv e = true →
        t.status ≠ Status.disconnected →
        (step t e).1.status ≠ Status.disconnected)
    ∧ (∀ t : ClientState, (handleClose t).status = Status.disconnected) := by
  refine ⟨?_, ?_, ?_, ?_⟩
  · refine ⟨?_, ?_, ?_⟩ <;>
      simp [errorTurnEvents, run, step, handleError, handleDone, startAllowed]
  · intro t mm
    exact ⟨rfl, rfl⟩
  · intro t e he hd
    cases e with
    | srvInterimTranscript x => simpa [step, handleInterimTranscript] using hd
    | srvFinalTranscript x => simpa [step, handleFinalTranscript] using hd
    | srvAssistantDelta d =>
        show (handleAssistantDelta d t).status ≠ Status.disconnected
        unfold handleAssistantDelta
        split_ifs
        · exact hd
        · exact hd
    | srvAssistantMessage x => simpa [step, handleAssistantMessage] using hd
    | srvTtsChunk b =>
        show (handleTtsChunk b t).status ≠ Status.disconnected
        rw [handleTtsChunk_status]
        exact hd
    | srvTtsAudio b =>
        show (handleTtsAudio b t).status ≠ Status.disconnected
        rw [handleTtsAudio_status]
        exact hd
    | srvDone => simp [step, handleDone]
    | srvError mm => simpa [step, handleError] using hd
    | srvCancelled => simp [step, handleCancelled]
    | stopEv c => simp [isServerMsgEv] at he
    | frameEv f n buf => simp [isServerMsgEv] at he
    | endedEv => simp [isServerMsgEv] at he
    | wsCloseEv => simp [isServerMsgEv] at he
  · intro t
    rfl

/-- A state mid-finalize, as when a transcription error arrives. -/
def finalizingState : ClientState :=
  { sessionState with status := Status.finalizing, finalizeSent := true }

/-- Closed witness for claim C9: an errored turn received while finalizing
ends with the session idle and startable, and a concrete `error` message
does not disconnect. -/
theorem error_keeps_session_usable_witness :
    ((run finalizingState (errorTurnEvents "stt_error: boom")).1.status =
        Status.idle)
    ∧ (isServerMsgEv (ClientEv.srvError "x") = true
        ∧ finalizingState.status ≠ Status.disconnected
        ∧ (step finalizingState (ClientEv.srvError "x")).1.status ≠
            Status.disconnected) :=
  ⟨(error_keeps_session_usable finalizingState "stt_error: boom").1.2.1,
   by decide, by decide,
   (error_keeps_session_usable finalizingState "x").2.2.1 finalizingState
     (ClientEv.srvError "x") (by decide) (by decide)⟩

lemma playNext_sawChunks (s : ClientState) :
    (playNext s).ttsSawChunks = s.ttsSawChunks := by
  cases hq : s.ttsQueue <;> simp [playNext, hq]

lemma enqueue_sawChunks (b : ℕ) (s : ClientState) :
    (enqueue b s).ttsSawChunks = s.ttsSawChunks := by
  unfold enqueue
  by_cases hp : s.ttsPlaying = true
  · simp [hp]
  · simp [hp, playNext_sawChunks]

/-- Claim C10: once a `tts_chunk` has been processed this turn, a legacy
`tts_audio` event is ignored entirely — it changes nothing and starts no
playback; processing any `tts_chunk` (even an undecodable one) sets the
suppression flag, and the flag is reset at the turn boundary (`done` or
`cancelled`).  Concretely, a chunk followed by a legacy WAV plays only the
chunk. -/
theorem legacy_tts_audio_suppressed (s : ClientState) (b : Option ℕ)
    (h : s.ttsSawChunks = true) :
    handleTtsAudio b s = s
    ∧ (∀ (t : ClientState) (b2 : Option ℕ), t.ctxReady = true →
        (handleTtsChunk b2 t).ttsSawChunks = true)
    ∧ (∀ t : ClientState, (handleDone t).ttsSawChunks = false
        ∧ (handleCancelled t).ttsSawChunks = false)
    ∧ (run sessionState
        [ClientEv.srvTtsChunk (some 1), ClientEv.srvTtsAudio (some 2)]).1.started
        = [1] := by
  refine ⟨by simp [handleTtsAudio, h], ?_, ?_, by decide⟩
  · intro t b2 hctx
    unfold handleTtsChunk
    cases b2 with
    | none => simp [hctx]
    | some v =>
        simp only [hctx, Bool.not_true, Bool.false_eq_true, if_false]
        rw [enqueue_sawChunks]
  · intro t
    exact ⟨rfl, rfl⟩

/-- Closed witness for claim C10 at a state that has seen chunks. -/
theorem legacy_tts_audio_suppressed_witness :
    ({ sessionState with ttsSawChunks := true } : ClientState).ttsSawChunks = true
    ∧ handleTtsAudio (some 9) { sessionState with ttsSawChunks := true } =
        { sessionState with ttsSawChunks := true } :=
  ⟨by decide,
   (legacy_tts_audio_suppressed { sessionState with ttsSawChunks := true }
     (some 9) (by decide)).1⟩

end DeadReflection
